import Mathlib

/-!
# Scroll reveal script (`script.js`)

A shallow embedding of the `DOMContentLoaded` handler of `script.js` and of the
`IntersectionObserver` callback it installs.

* The document is the list of its elements in tree order; an element is named
  by its position in that list.
* An element carries its local name, its `classList` (an ordered token list)
  and the four inline style properties the script writes.
* The handler is a state transformer that also records, in order, every effect
  it performs (`Run.trace`).
-/

namespace Chernobyl

/-! ## Data model -/

/-- Inline style properties written by the script (`element.style.*`). -/
structure Style where
  opacity : String
  transform : String
  transition : String
  textShadow : String
deriving DecidableEq, Repr

/-- One element of the document. -/
structure Element where
  localName : String
  classList : List String
  style : Style
deriving DecidableEq, Repr

/-- The observer object built by `new IntersectionObserver(cb, { threshold })`,
with the list of targets registered through `observe`. -/
structure IntersectionObserver where
  threshold : ℚ
  targets : List Nat
deriving DecidableEq, Repr

/-- One `IntersectionObserverEntry` handed to the callback by the host. -/
structure IntersectionObserverEntry where
  target : Nat
  isIntersecting : Bool
  intersectionRatio : ℚ
deriving DecidableEq, Repr

/-- Page state the script reads and writes. -/
structure State where
  elements : List Element
  observer : Option IntersectionObserver
  console : List String
deriving DecidableEq, Repr

/-- The effects the script performs on the page. -/
inductive Effect where
  | consoleLog (msg : String)
  | newIntersectionObserver (threshold : ℚ)
  | setOpacity (target : Nat) (value : String)
  | setTransform (target : Nat) (value : String)
  | setTransition (target : Nat) (value : String)
  | setTextShadow (target : Nat) (value : String)
  | observe (target : Nat)
  | classListAdd (target : Nat) (token : String)
deriving DecidableEq, Repr

/-- A state together with the effects performed so far, oldest first. -/
structure Run where
  state : State
  trace : List Effect
deriving DecidableEq, Repr

/-! ## Host primitives -/

/-- Rewrite the element at position `i`, leaving the list unchanged when `i`
is out of range. -/
def updateAt (f : Element → Element) : Nat → List Element → List Element
  | _, [] => []
  | 0, e :: es => f e :: es
  | n + 1, e :: es => e :: updateAt f n es

/-- The call `document.querySelectorAll(sel)` for a selector on the local name:
the positions of the matching elements, in document order. -/
def querySelectorAll (sel : String → Bool) (els : List Element) : List Nat :=
  (List.range els.length).filter fun i =>
    match els[i]? with
    | some e => sel e.localName
    | none => false

/-- The selector `section`. -/
def selSection (name : String) : Bool := name == "section"

/-- The selector `h1, h2`. -/
def selHeading (name : String) : Bool := name == "h1" || name == "h2"

/-- The call `classList.add(token)`: appends the token unless already present. -/
def tokenAdd (token : String) (e : Element) : Element :=
  if token ∈ e.classList then e else { e with classList := e.classList ++ [token] }

/-- The call `element.classList.contains(token)` on the element at position `i`. -/
def classListContains (i : Nat) (token : String) (s : State) : Bool :=
  match s.elements[i]? with
  | some e => decide (token ∈ e.classList)
  | none => false

/-- The call `observer.observe(target)`: a target already registered is not
registered again. -/
def register (i : Nat) (o : IntersectionObserver) : IntersectionObserver :=
  if i ∈ o.targets then o else { o with targets := o.targets ++ [i] }

/-- Meaning of one effect on the page state. -/
def applyEffect : Effect → State → State
  | .consoleLog msg, s => { s with console := s.console ++ [msg] }
  | .newIntersectionObserver t, s => { s with observer := some ⟨t, []⟩ }
  | .setOpacity i v, s =>
      { s with elements := updateAt (fun e => { e with style := { e.style with opacity := v } }) i s.elements }
  | .setTransform i v, s =>
      { s with elements := updateAt (fun e => { e with style := { e.style with transform := v } }) i s.elements }
  | .setTransition i v, s =>
      { s with elements := updateAt (fun e => { e with style := { e.style with transition := v } }) i s.elements }
  | .setTextShadow i v, s =>
      { s with elements := updateAt (fun e => { e with style := { e.style with textShadow := v } }) i s.elements }
  | .observe i, s => { s with observer := s.observer.map (register i) }
  | .classListAdd i token, s => { s with elements := updateAt (tokenAdd token) i s.elements }

/-- Perform an effect and record it. -/
def perform (e : Effect) (r : Run) : Run :=
  { state := applyEffect e r.state, trace := r.trace ++ [e] }

/-! ## The script -/

/-- Lines 5-11: the observer callback. Each entry with `isIntersecting` gets
`visible` added to the class list of its target. -/
def observerCallback (entries : List IntersectionObserverEntry) (s : State) : State :=
  entries.foldl
    (fun s entry =>
      if entry.isIntersecting then applyEffect (.classListAdd entry.target "visible") s else s)
    s

/-- Lines 13-18: body of the first `sections.forEach`. -/
def hideAndObserve (r : Run) (section_ : Nat) : Run :=
  let r := perform (.setOpacity section_ "0") r
  let r := perform (.setTransform section_ "translateY(30px)") r
  let r := perform (.setTransition section_ "all 0.8s ease-out") r
  perform (.observe section_) r

/-- Lines 20-25: body of the second `sections.forEach`. -/
def resolveIfVisible (r : Run) (section_ : Nat) : Run :=
  if classListContains section_ "visible" r.state then
    let r := perform (.setOpacity section_ "1") r
    perform (.setTransform section_ "translateY(0)") r
  else r

/-- Lines 28-30: body of `headings.forEach`. -/
def glow (r : Run) (heading : Nat) : Run :=
  perform (.setTextShadow heading "0 0 10px rgba(255, 215, 0, 0.5)") r

/-- Lines 1-31: the `DOMContentLoaded` handler, run on the page state at
ready-time. -/
def onDOMContentLoaded (s : State) : Run :=
  let r : Run := { state := s, trace := [] }
  let r := perform (.consoleLog "Темная тема с градиентом загружена!") r
  let sections := querySelectorAll selSection r.state.elements
  let r := perform (.newIntersectionObserver (1 / 10)) r
  let r := sections.foldl hideAndObserve r
  let r := sections.foldl resolveIfVisible r
  let headings := querySelectorAll selHeading r.state.elements
  headings.foldl glow r

/-- The host invoking the observer callback once per batch, in order. -/
def deliver (batches : List (List IntersectionObserverEntry)) (s : State) : State :=
  batches.foldl (fun s batch => observerCallback batch s) s

/-- The session: the handler, then the observer callback once per batch of
entries delivered by the host. -/
def session (s : State) (batches : List (List IntersectionObserverEntry)) : State :=
  deliver batches (onDOMContentLoaded s).state

/-! ## Vocabulary of the properties -/

/-- The element at position `i` carries the `visible` marker. -/
def hasVisible (i : Nat) (s : State) : Prop :=
  ∃ e, s.elements[i]? = some e ∧ "visible" ∈ e.classList

instance (i : Nat) (s : State) : Decidable (hasVisible i s) :=
  match h : s.elements[i]? with
  | some e =>
      if hv : "visible" ∈ e.classList then isTrue ⟨e, h, hv⟩
      else isFalse (by rintro ⟨e2, h2, hv2⟩; rw [h] at h2; cases h2; exact hv hv2)
  | none => isFalse (by rintro ⟨e2, h2, _⟩; rw [h] at h2; cases h2)

/-- An initial (hidden state) style write of the handler on element `i`. -/
def isInitialWrite (i : Nat) (e : Effect) : Prop :=
  e = .setOpacity i "0" ∨ e = .setTransform i "translateY(30px)" ∨
    e = .setTransition i "all 0.8s ease-out"

instance (i : Nat) (e : Effect) : Decidable (isInitialWrite i e) :=
  inferInstanceAs (Decidable (e = .setOpacity i "0" ∨ e = .setTransform i "translateY(30px)" ∨
    e = .setTransition i "all 0.8s ease-out"))

/-- Modelled from the spec: how the observer of the host fills in an entry. The
flag `isIntersecting` is set exactly when the reported visible area ratio
reaches the threshold the observer was built with (reveal triggers at a ratio
of at least 0.10). The host is not part of the source; the callback is only
ever invoked by the observer, with entries filled in this way. -/
def deliveredBy : Option IntersectionObserver → IntersectionObserverEntry → Prop
  | some o, entry => entry.isIntersecting = decide (o.threshold ≤ entry.intersectionRatio)
  | none, _ => False

instance : (o : Option IntersectionObserver) → (entry : IntersectionObserverEntry) →
    Decidable (deliveredBy o entry)
  | some o, entry =>
      inferInstanceAs
        (Decidable (entry.isIntersecting = decide (o.threshold ≤ entry.intersectionRatio)))
  | none, _ => isFalse (fun h => h)

/-- A blank inline style. -/
def Style.blank : Style := ⟨"", "", "", ""⟩

/-- A page at ready-time with the given elements, no observer and an empty console. -/
def pageOf (els : List Element) : State := ⟨els, none, []⟩

/-- Net effect of lines 14-16 on one section. -/
def hidden (e : Element) : Element :=
  { e with style := { e.style with
      opacity := "0", transform := "translateY(30px)", transition := "all 0.8s ease-out" } }

/-- Net effect of lines 21-24 on one section. -/
def resolved (e : Element) : Element :=
  if "visible" ∈ e.classList then
    { e with style := { e.style with opacity := "1", transform := "translateY(0)" } }
  else e

/-- Net effect of line 29 on one heading. -/
def glowing (e : Element) : Element :=
  { e with style := { e.style with textShadow := "0 0 10px rgba(255, 215, 0, 0.5)" } }

/-- Rewrite the elements matched by a selector and keep the others. -/
def onMatch (sel : String → Bool) (g : Element → Element) (e : Element) : Element :=
  if sel e.localName then g e else e

/-- Net effect of the three loops of the handler on one element. -/
def afterLoad (e : Element) : Element :=
  onMatch selHeading glowing (onMatch selSection resolved (onMatch selSection hidden e))

/-- The effects of the first loop over the given sections, in order. -/
def hideTrace : List Nat → List Effect
  | [] => []
  | i :: l =>
      .setOpacity i "0" :: .setTransform i "translateY(30px)" ::
        .setTransition i "all 0.8s ease-out" :: .observe i :: hideTrace l

/-- A write of the resolved (visible) style state, as made by the second loop. -/
def isResolvedWrite (e : Effect) : Prop :=
  ∃ i, e = .setOpacity i "1" ∨ e = .setTransform i "translateY(0)"

/-- Some entry of the batch reports `isIntersecting` for the element at position `j`. -/
def intersects (batch : List IntersectionObserverEntry) (j : Nat) : Prop :=
  ∃ entry ∈ batch, entry.isIntersecting = true ∧ entry.target = j

instance (batch : List IntersectionObserverEntry) (j : Nat) : Decidable (intersects batch j) :=
  inferInstanceAs (Decidable (∃ entry ∈ batch, entry.isIntersecting = true ∧ entry.target = j))

/-! ## Element updates -/

theorem length_updateAt (f : Element → Element) (i : Nat) (xs : List Element) :
    (updateAt f i xs).length = xs.length := by
  induction xs generalizing i with
  | nil => cases i <;> rfl
  | cons e es ih =>
    cases i with
    | zero => rfl
    | succ n => simp [updateAt, ih]

theorem getElem?_updateAt (f : Element → Element) (i j : Nat) (xs : List Element) :
    (updateAt f i xs)[j]? = if i = j then xs[j]?.map f else xs[j]? := by
  induction xs generalizing i j with
  | nil => cases i <;> simp [updateAt]
  | cons e es ih =>
    cases i with
    | zero =>
      cases j with
      | zero => simp [updateAt]
      | succ m => simp [updateAt]
    | succ n =>
      cases j with
      | zero => simp [updateAt]
      | succ m => simp [updateAt, ih]

theorem updateAt_updateAt (f g : Element → Element) (i : Nat) (xs : List Element) :
    updateAt f i (updateAt g i xs) = updateAt (fun e => f (g e)) i xs := by
  induction xs generalizing i with
  | nil => cases i <;> rfl
  | cons e es ih =>
    cases i with
    | zero => rfl
    | succ n => simp [updateAt, ih]

theorem updateAt_id (f : Element → Element) (i : Nat) (xs : List Element)
    (h : ∀ e, xs[i]? = some e → f e = e) : updateAt f i xs = xs := by
  apply List.ext_getElem?
  intro j
  rw [getElem?_updateAt]
  split
  · next hij =>
    subst hij
    cases hx : xs[i]? with
    | none => rfl
    | some e => simp [h e hx]
  · rfl

/-- Folding `updateAt g` over a duplicate-free list of positions rewrites
exactly the listed positions, each once. -/
theorem getElem?_foldl_updateAt (g : Element → Element) (l : List Nat) (hl : l.Nodup)
    (xs : List Element) (j : Nat) :
    (l.foldl (fun ys i => updateAt g i ys) xs)[j]? =
      if j ∈ l then xs[j]?.map g else xs[j]? := by
  induction l generalizing xs with
  | nil => simp
  | cons a l ih =>
    have hnd := List.nodup_cons.mp hl
    rw [List.foldl_cons, ih hnd.2, getElem?_updateAt]
    by_cases hja : j = a
    · subst hja
      simp [hnd.1]
    · have haj : ¬ a = j := fun h => hja h.symm
      simp [hja, haj]

/-! ## `querySelectorAll` -/

theorem mem_querySelectorAll (sel : String → Bool) (xs : List Element) (j : Nat) :
    j ∈ querySelectorAll sel xs ↔ ∃ e, xs[j]? = some e ∧ sel e.localName = true := by
  unfold querySelectorAll
  rw [List.mem_filter, List.mem_range]
  constructor
  · rintro ⟨hlt, hsel⟩
    rw [List.getElem?_eq_getElem hlt] at hsel
    exact ⟨xs[j], List.getElem?_eq_getElem hlt, hsel⟩
  · rintro ⟨e, he, hsel⟩
    obtain ⟨hlt, _⟩ := List.getElem?_eq_some.mp he
    refine ⟨hlt, ?_⟩
    rw [he]
    exact hsel

theorem nodup_querySelectorAll (sel : String → Bool) (xs : List Element) :
    (querySelectorAll sel xs).Nodup :=
  (List.nodup_range _).filter _

/-- Rewriting elements without touching their local names does not change
what a selector matches. -/
theorem querySelectorAll_map (sel : String → Bool) (h : Element → Element)
    (hname : ∀ e, (h e).localName = e.localName) (xs : List Element) :
    querySelectorAll sel (xs.map h) = querySelectorAll sel xs := by
  unfold querySelectorAll
  rw [List.length_map]
  apply List.filter_congr
  intro i _
  rw [List.getElem?_map]
  cases xs[i]? with
  | none => rfl
  | some e => simp [hname]

/-- A `forEach` over the result of `querySelectorAll` that rewrites each visited
element with `g` amounts to a map over the document. -/
theorem foldl_updateAt_querySelectorAll (sel : String → Bool) (g : Element → Element)
    (xs : List Element) :
    (querySelectorAll sel xs).foldl (fun ys i => updateAt g i ys) xs =
      xs.map (fun e => if sel e.localName then g e else e) := by
  apply List.ext_getElem?
  intro j
  rw [getElem?_foldl_updateAt g _ (nodup_querySelectorAll sel xs), List.getElem?_map]
  have hmem := mem_querySelectorAll sel xs j
  cases hx : xs[j]? with
  | none => simp
  | some e =>
    rw [hx] at hmem
    by_cases hs : sel e.localName = true
    · have : j ∈ querySelectorAll sel xs := hmem.mpr ⟨e, rfl, hs⟩
      simp [hs, this]
    · have : j ∉ querySelectorAll sel xs := fun hj => by
        obtain ⟨e2, he2, hs2⟩ := hmem.mp hj
        cases he2
        exact hs hs2
      simp [hs, this]

theorem updateAt_congr (f g : Element → Element) (i : Nat) (xs : List Element)
    (h : ∀ e, xs[i]? = some e → f e = g e) : updateAt f i xs = updateAt g i xs := by
  apply List.ext_getElem?
  intro j
  rw [getElem?_updateAt, getElem?_updateAt]
  split
  · next hij =>
    subst hij
    cases hx : xs[i]? with
    | none => rfl
    | some e => simp [h e hx]
  · rfl

/-! ## The loop bodies, field by field -/

/-- A projection that each iteration transforms by `step` is transformed by
the whole loop by the fold of `step`. -/
theorem foldl_proj {α : Type} (body : Run → Nat → Run) (proj : Run → α) (step : α → Nat → α)
    (h : ∀ r i, proj (body r i) = step (proj r) i) (l : List Nat) (r : Run) :
    proj (l.foldl body r) = l.foldl step (proj r) := by
  induction l generalizing r with
  | nil => rfl
  | cons a l ih => rw [List.foldl_cons, ih, h, List.foldl_cons]

theorem foldl_const {α : Type} (l : List Nat) (a : α) : l.foldl (fun x _ => x) a = a := by
  induction l with
  | nil => rfl
  | cons b l ih => rw [List.foldl_cons, ih]

theorem hideAndObserve_elements (r : Run) (i : Nat) :
    (hideAndObserve r i).state.elements = updateAt hidden i r.state.elements := by
  simp only [hideAndObserve, perform, applyEffect, updateAt_updateAt]
  rfl

theorem hideAndObserve_observer (r : Run) (i : Nat) :
    (hideAndObserve r i).state.observer = r.state.observer.map (register i) := by
  simp only [hideAndObserve, perform, applyEffect]

theorem hideAndObserve_console (r : Run) (i : Nat) :
    (hideAndObserve r i).state.console = r.state.console := by
  simp only [hideAndObserve, perform, applyEffect]

theorem hideAndObserve_trace (r : Run) (i : Nat) :
    (hideAndObserve r i).trace = r.trace ++ hideTrace [i] := by
  simp [hideAndObserve, perform, hideTrace]

theorem resolveIfVisible_elements (r : Run) (i : Nat) :
    (resolveIfVisible r i).state.elements = updateAt resolved i r.state.elements := by
  unfold resolveIfVisible classListContains
  cases hx : r.state.elements[i]? with
  | none =>
    simp only [Bool.false_eq_true, if_false]
    exact (updateAt_id _ _ _ (fun e he => by rw [hx] at he; cases he)).symm
  | some e =>
    by_cases hv : "visible" ∈ e.classList
    · simp only [hv, decide_True, if_true, perform, applyEffect, updateAt_updateAt]
      apply updateAt_congr
      intro e2 he2
      rw [hx] at he2
      cases he2
      simp [resolved, hv]
    · simp only [hv, decide_False, Bool.false_eq_true, if_false]
      refine (updateAt_id _ _ _ (fun e2 he2 => ?_)).symm
      rw [hx] at he2
      cases he2
      simp [resolved, hv]

theorem resolveIfVisible_observer (r : Run) (i : Nat) :
    (resolveIfVisible r i).state.observer = r.state.observer := by
  unfold resolveIfVisible
  split <;> simp only [perform, applyEffect]

theorem resolveIfVisible_console (r : Run) (i : Nat) :
    (resolveIfVisible r i).state.console = r.state.console := by
  unfold resolveIfVisible
  split <;> simp only [perform, applyEffect]

theorem resolveIfVisible_trace (r : Run) (i : Nat) :
    ∃ ext, (resolveIfVisible r i).trace = r.trace ++ ext ∧ ∀ e ∈ ext, isResolvedWrite e := by
  unfold resolveIfVisible
  split
  · refine ⟨[.setOpacity i "1", .setTransform i "translateY(0)"], by simp [perform], ?_⟩
    intro e he
    simp only [List.mem_cons, List.mem_singleton, List.not_mem_nil, or_false] at he
    exact ⟨i, he⟩
  · exact ⟨[], by simp, by simp⟩

theorem glow_elements (r : Run) (i : Nat) :
    (glow r i).state.elements = updateAt glowing i r.state.elements := by
  simp only [glow, perform, applyEffect]
  rfl

theorem glow_observer (r : Run) (i : Nat) :
    (glow r i).state.observer = r.state.observer := by
  simp only [glow, perform, applyEffect]

theorem glow_console (r : Run) (i : Nat) :
    (glow r i).state.console = r.state.console := by
  simp only [glow, perform, applyEffect]

theorem glow_trace (r : Run) (i : Nat) :
    (glow r i).trace =
      r.trace ++ [.setTextShadow i "0 0 10px rgba(255, 215, 0, 0.5)"] := by
  simp only [glow, perform]

/-! ## The handler, field by field -/

theorem onMatch_localName (sel : String → Bool) (g : Element → Element)
    (hg : ∀ e, (g e).localName = e.localName) (e : Element) :
    (onMatch sel g e).localName = e.localName := by
  unfold onMatch
  split
  · exact hg e
  · rfl

theorem hidden_localName (e : Element) : (hidden e).localName = e.localName := rfl

theorem resolved_localName (e : Element) : (resolved e).localName = e.localName := by
  unfold resolved
  split <;> rfl

theorem foldl_hideAndObserve_elements (xs : List Element) (r : Run)
    (hr : r.state.elements = xs) :
    ((querySelectorAll selSection xs).foldl hideAndObserve r).state.elements =
      xs.map (onMatch selSection hidden) := by
  rw [foldl_proj hideAndObserve (fun r => r.state.elements) (fun ys i => updateAt hidden i ys)
    hideAndObserve_elements, hr, foldl_updateAt_querySelectorAll]
  rfl

theorem foldl_resolveIfVisible_elements (xs : List Element) (r : Run)
    (hr : r.state.elements = xs.map (onMatch selSection hidden)) :
    ((querySelectorAll selSection xs).foldl resolveIfVisible r).state.elements =
      (xs.map (onMatch selSection hidden)).map (onMatch selSection resolved) := by
  rw [foldl_proj resolveIfVisible (fun r => r.state.elements)
    (fun ys i => updateAt resolved i ys) resolveIfVisible_elements, hr,
    ← querySelectorAll_map selSection (onMatch selSection hidden)
      (onMatch_localName selSection hidden hidden_localName) xs,
    foldl_updateAt_querySelectorAll]
  rfl

theorem foldl_glow_elements (r : Run) :
    ((querySelectorAll selHeading r.state.elements).foldl glow r).state.elements =
      r.state.elements.map (onMatch selHeading glowing) := by
  rw [foldl_proj glow (fun r => r.state.elements) (fun ys i => updateAt glowing i ys)
    glow_elements, foldl_updateAt_querySelectorAll]
  rfl

/-- The elements after the handler: every element rewritten by `afterLoad`. -/
theorem onDOMContentLoaded_elements (s : State) :
    (onDOMContentLoaded s).state.elements = s.elements.map afterLoad := by
  unfold onDOMContentLoaded
  simp only []
  rw [foldl_glow_elements]
  have h1 : (perform (.consoleLog "Темная тема с градиентом загружена!")
      { state := s, trace := [] }).state.elements = s.elements := rfl
  rw [h1, foldl_resolveIfVisible_elements s.elements _
    (foldl_hideAndObserve_elements s.elements _ rfl), List.map_map, List.map_map]
  rfl

theorem foldl_register (t : ℚ) (l : List Nat) (hl : l.Nodup) (ts : List Nat)
    (hdisj : ∀ i ∈ l, i ∉ ts) :
    l.foldl (fun o i => register i o) ⟨t, ts⟩ = ⟨t, ts ++ l⟩ := by
  induction l generalizing ts with
  | nil => simp
  | cons a l ih =>
    have hnd := List.nodup_cons.mp hl
    have ha : a ∉ ts := hdisj a (List.mem_cons_self a l)
    have hstep : register a ⟨t, ts⟩ = ⟨t, ts ++ [a]⟩ := by simp [register, ha]
    rw [List.foldl_cons, hstep, ih hnd.2]
    · simp
    · intro i hi hmem
      rcases List.mem_append.mp hmem with h | h
      · exact hdisj i (List.mem_cons_of_mem a hi) h
      · rw [List.mem_singleton] at h
        subst h
        exact hnd.1 hi

theorem foldl_option_map (l : List Nat) (o : IntersectionObserver) :
    l.foldl (fun (x : Option IntersectionObserver) i => x.map (register i)) (some o) =
      some (l.foldl (fun o i => register i o) o) := by
  induction l generalizing o with
  | nil => rfl
  | cons a l ih => rw [List.foldl_cons, List.foldl_cons, Option.map_some', ih]

theorem foldl_hideAndObserve_trace (l : List Nat) (r : Run) :
    (l.foldl hideAndObserve r).trace = r.trace ++ hideTrace l := by
  induction l generalizing r with
  | nil => simp [hideTrace]
  | cons a l ih =>
    rw [List.foldl_cons, ih, hideAndObserve_trace]
    simp [hideTrace]

theorem foldl_resolveIfVisible_trace (l : List Nat) (r : Run) :
    ∃ ext, (l.foldl resolveIfVisible r).trace = r.trace ++ ext ∧
      ∀ e ∈ ext, isResolvedWrite e := by
  induction l generalizing r with
  | nil => exact ⟨[], by simp, by simp⟩
  | cons a l ih =>
    obtain ⟨ext1, h1, hw1⟩ := resolveIfVisible_trace r a
    obtain ⟨ext2, h2, hw2⟩ := ih (resolveIfVisible r a)
    refine ⟨ext1 ++ ext2, ?_, ?_⟩
    · rw [List.foldl_cons, h2, h1, List.append_assoc]
    · intro e he
      rcases List.mem_append.mp he with h | h
      · exact hw1 e h
      · exact hw2 e h

theorem foldl_glow_trace (l : List Nat) (r : Run) :
    (l.foldl glow r).trace =
      r.trace ++ l.map (fun i => Effect.setTextShadow i "0 0 10px rgba(255, 215, 0, 0.5)") := by
  induction l generalizing r with
  | nil => simp
  | cons a l ih =>
    rw [List.foldl_cons, ih, glow_trace]
    simp

/-- The observer after the handler: threshold one tenth, and the sections as
targets, in document order. -/
theorem onDOMContentLoaded_observer (s : State) :
    (onDOMContentLoaded s).state.observer =
      some ⟨1 / 10, querySelectorAll selSection s.elements⟩ := by
  unfold onDOMContentLoaded
  simp only []
  rw [foldl_proj glow (fun r => r.state.observer) (fun o _ => o) glow_observer, foldl_const,
    foldl_proj resolveIfVisible (fun r => r.state.observer) (fun o _ => o)
      resolveIfVisible_observer, foldl_const,
    foldl_proj hideAndObserve (fun r => r.state.observer) (fun o i => o.map (register i))
      hideAndObserve_observer]
  simp only [perform, applyEffect]
  rw [foldl_option_map, foldl_register _ _ (nodup_querySelectorAll _ _) _ (by simp)]
  simp

/-- The console after the handler: one more line. -/
theorem onDOMContentLoaded_console (s : State) :
    (onDOMContentLoaded s).state.console =
      s.console ++ ["Темная тема с градиентом загружена!"] := by
  unfold onDOMContentLoaded
  simp only []
  rw [foldl_proj glow (fun r => r.state.console) (fun o _ => o) glow_console, foldl_const,
    foldl_proj resolveIfVisible (fun r => r.state.console) (fun o _ => o)
      resolveIfVisible_console, foldl_const,
    foldl_proj hideAndObserve (fun r => r.state.console) (fun o _ => o)
      hideAndObserve_console, foldl_const]
  rfl

/-- The effects of the handler, in order: the log line, the observer, the first
loop, writes of the resolved state, the heading glow. -/
theorem onDOMContentLoaded_trace (s : State) :
    ∃ ext, (∀ e ∈ ext, isResolvedWrite e) ∧
      (onDOMContentLoaded s).trace =
        [.consoleLog "Темная тема с градиентом загружена!", .newIntersectionObserver (1 / 10)] ++
          hideTrace (querySelectorAll selSection s.elements) ++ ext ++
          (querySelectorAll selHeading s.elements).map
            (fun i => Effect.setTextShadow i "0 0 10px rgba(255, 215, 0, 0.5)") := by
  unfold onDOMContentLoaded
  simp only []
  obtain ⟨ext, hext, hw⟩ := foldl_resolveIfVisible_trace
    (querySelectorAll selSection s.elements)
    ((querySelectorAll selSection s.elements).foldl hideAndObserve
      (perform (.newIntersectionObserver (1 / 10))
        (perform (.consoleLog "Темная тема с градиентом загружена!")
          { state := s, trace := [] })))
  refine ⟨ext, hw, ?_⟩
  have h1 : (perform (.consoleLog "Темная тема с градиентом загружена!")
      { state := s, trace := [] }).state.elements = s.elements := rfl
  rw [foldl_glow_trace, h1, hext, foldl_hideAndObserve_trace,
    foldl_resolveIfVisible_elements s.elements _
      (foldl_hideAndObserve_elements s.elements _ rfl),
    querySelectorAll_map selHeading _ (onMatch_localName selSection resolved resolved_localName),
    querySelectorAll_map selHeading _ (onMatch_localName selSection hidden hidden_localName)]
  simp [perform]

/-! ## The observer callback -/

theorem tokenAdd_tokenAdd (token : String) (e : Element) :
    tokenAdd token (tokenAdd token e) = tokenAdd token e := by
  unfold tokenAdd
  by_cases h : token ∈ e.classList
  · simp [h]
  · simp [h]

theorem observerCallback_nil (s : State) : observerCallback [] s = s := rfl

theorem observerCallback_cons (entry : IntersectionObserverEntry)
    (batch : List IntersectionObserverEntry) (s : State) :
    observerCallback (entry :: batch) s =
      observerCallback batch
        (if entry.isIntersecting then applyEffect (.classListAdd entry.target "visible") s
          else s) := rfl

theorem observerCallback_observer (batch : List IntersectionObserverEntry) (s : State) :
    (observerCallback batch s).observer = s.observer := by
  induction batch generalizing s with
  | nil => rfl
  | cons entry batch ih =>
    rw [observerCallback_cons, ih]
    split <;> rfl

theorem observerCallback_console (batch : List IntersectionObserverEntry) (s : State) :
    (observerCallback batch s).console = s.console := by
  induction batch generalizing s with
  | nil => rfl
  | cons entry batch ih =>
    rw [observerCallback_cons, ih]
    split <;> rfl

/-- The callback rewrites, with `classList.add`, exactly the elements targeted
by an entry that reports `isIntersecting`. -/
theorem observerCallback_getElem? (batch : List IntersectionObserverEntry) (s : State)
    (j : Nat) :
    (observerCallback batch s).elements[j]? =
      if intersects batch j then s.elements[j]?.map (tokenAdd "visible")
      else s.elements[j]? := by
  induction batch generalizing s with
  | nil => simp [observerCallback_nil, intersects]
  | cons entry batch ih =>
    rw [observerCallback_cons, ih]
    have hcons : intersects (entry :: batch) j ↔
        (entry.isIntersecting = true ∧ entry.target = j) ∨ intersects batch j := by
      simp [intersects]
    by_cases hhead : entry.isIntersecting = true ∧ entry.target = j
    · have h1 : intersects (entry :: batch) j := hcons.mpr (Or.inl hhead)
      obtain ⟨hi, ht⟩ := hhead
      simp only [hi, if_true, h1, applyEffect, getElem?_updateAt, ht]
      cases s.elements[j]? with
      | none => simp
      | some e => simp [tokenAdd_tokenAdd]
    · have hsame : (if entry.isIntersecting = true then
            applyEffect (.classListAdd entry.target "visible") s else s).elements[j]? =
          s.elements[j]? := by
        split
        · next hi =>
          have ht : ¬ entry.target = j := fun ht => hhead ⟨hi, ht⟩
          simp only [applyEffect, getElem?_updateAt, ht, if_false]
        · rfl
      have hiff : intersects (entry :: batch) j ↔ intersects batch j := by
        rw [hcons]
        exact ⟨fun h => h.resolve_left hhead, Or.inr⟩
      rw [hsame]
      by_cases hb : intersects batch j
      · simp [hb, hiff.mpr hb]
      · have : ¬ intersects (entry :: batch) j := fun h => hb (hiff.mp h)
        simp [hb, this]

theorem state_ext (s t : State) (he : s.elements = t.elements) (ho : s.observer = t.observer)
    (hc : s.console = t.console) : s = t := by
  cases s
  cases t
  simp only at he ho hc
  subst he ho hc
  rfl

/-- The marker after a callback: there before, or added by an intersecting entry. -/
theorem hasVisible_observerCallback (batch : List IntersectionObserverEntry) (s : State)
    (j : Nat) :
    hasVisible j (observerCallback batch s) ↔
      hasVisible j s ∨ (j < s.elements.length ∧ intersects batch j) := by
  unfold hasVisible
  rw [observerCallback_getElem?]
  cases hx : s.elements[j]? with
  | none =>
    have hlen : ¬ j < s.elements.length := by
      intro h
      rw [List.getElem?_eq_getElem h] at hx
      cases hx
    simp [hlen]
  | some e =>
    have hlen : j < s.elements.length := (List.getElem?_eq_some.mp hx).1
    by_cases hb : intersects batch j
    · by_cases hv : "visible" ∈ e.classList
      · simp [hb, hlen, tokenAdd, hv]
      · simp [hb, hlen, tokenAdd, hv]
    · simp [hb, hlen]

theorem observerCallback_filter (batch : List IntersectionObserverEntry) (s : State) :
    observerCallback batch s = observerCallback (batch.filter (fun e => e.isIntersecting)) s := by
  induction batch generalizing s with
  | nil => rfl
  | cons entry batch ih =>
    cases hi : entry.isIntersecting with
    | true =>
      rw [List.filter_cons_of_pos hi, observerCallback_cons, observerCallback_cons, ih]
    | false =>
      have hneg : ¬ entry.isIntersecting = true := by simp [hi]
      rw [List.filter_cons_of_neg hneg, observerCallback_cons, ← ih]
      simp [hi]

theorem hasVisible_deliver_of_hasVisible (batches : List (List IntersectionObserverEntry))
    (s : State) (i : Nat) (h : hasVisible i s) : hasVisible i (deliver batches s) := by
  induction batches generalizing s with
  | nil => exact h
  | cons b bs ih =>
    exact ih (observerCallback b s) ((hasVisible_observerCallback b s i).mpr (Or.inl h))

theorem deliver_append (bs cs : List (List IntersectionObserverEntry)) (s : State) :
    deliver (bs ++ cs) s = deliver cs (deliver bs s) := by
  simp [deliver, List.foldl_append]

theorem afterLoad_classList (e : Element) : (afterLoad e).classList = e.classList := by
  simp only [afterLoad, onMatch, hidden, resolved, glowing]
  repeat' split
  all_goals rfl

theorem afterLoad_localName (e : Element) : (afterLoad e).localName = e.localName := by
  simp only [afterLoad, onMatch, hidden, resolved, glowing]
  repeat' split
  all_goals rfl

theorem hasVisible_onDOMContentLoaded (s : State) (i : Nat) :
    hasVisible i (onDOMContentLoaded s).state ↔ hasVisible i s := by
  unfold hasVisible
  rw [onDOMContentLoaded_elements, List.getElem?_map]
  cases s.elements[i]? with
  | none => simp
  | some e => simp [afterLoad_classList]

/-! ## Visibility watcher -/

/-- Marking follows the `isIntersecting` flag: an entry of the batch that
targets an element of the page with the flag set gets it marked, and over
batches in which no entry targeting the element has the flag set, the element
is marked afterwards exactly when it was before. -/
theorem marking_follows_flag (s : State) (batch : List IntersectionObserverEntry)
    (batches : List (List IntersectionObserverEntry)) (i : Nat) :
    (i < s.elements.length →
        (∃ entry ∈ batch, entry.isIntersecting = true ∧ entry.target = i) →
        hasVisible i (observerCallback batch s)) ∧
      ((∀ b ∈ batches, ∀ entry ∈ b, entry.target = i → entry.isIntersecting = false) →
        (hasVisible i (deliver batches s) ↔ hasVisible i s)) := by
  constructor
  · intro hi hex
    exact (hasVisible_observerCallback batch s i).mpr (Or.inr ⟨hi, hex⟩)
  · intro hall
    induction batches generalizing s with
    | nil => exact Iff.rfl
    | cons b bs ih =>
      have hb : ¬ intersects b i := by
        rintro ⟨entry, hmem, hint, htgt⟩
        have := hall b (List.mem_cons_self b bs) entry hmem htgt
        rw [this] at hint
        cases hint
      have hstep : hasVisible i (observerCallback b s) ↔ hasVisible i s := by
        rw [hasVisible_observerCallback]
        exact ⟨fun h => h.elim id (fun h2 => absurd h2.2 hb), Or.inl⟩
      have hrest := ih (observerCallback b s)
        (fun b2 hb2 => hall b2 (List.mem_cons_of_mem b hb2))
      exact hrest.trans hstep

theorem deliver_length (batches : List (List IntersectionObserverEntry)) (s : State) :
    (deliver batches s).elements.length = s.elements.length := by
  induction batches generalizing s with
  | nil => rfl
  | cons b bs ih =>
    have hb : (observerCallback b s).elements.length = s.elements.length := by
      by_contra hne
      have hget := observerCallback_getElem? b s
      rcases Nat.lt_or_gt_of_ne hne with hlt | hgt
      · have h1 := hget (observerCallback b s).elements.length
        rw [List.getElem?_eq_none (Nat.le_refl _), List.getElem?_eq_getElem hlt] at h1
        split at h1 <;> simp at h1
      · have h1 := hget s.elements.length
        rw [List.getElem?_eq_none (Nat.le_refl _), List.getElem?_eq_getElem hgt] at h1
        split at h1 <;> simp at h1
    exact (ih (observerCallback b s)).trans hb

/-- An entry delivered by the observer the handler builds has the flag set
exactly when its ratio is at least one tenth. -/
theorem deliveredBy_handler (s : State) (entry : IntersectionObserverEntry)
    (h : deliveredBy (onDOMContentLoaded s).state.observer entry) :
    entry.isIntersecting = true ↔ 1 / 10 ≤ entry.intersectionRatio := by
  rw [onDOMContentLoaded_observer] at h
  simp only [deliveredBy] at h
  rw [h]
  simp

/-- C1: threshold correctness of the visibility watcher. Over the handler
followed by callbacks whose entries are delivered by the observer the handler
built (threshold 0.1): in any callback batch, an entry for an element of the
page that reports a visible area ratio of at least 0.10 gets that element
marked by this callback, whatever batches came before; and over any sequence
of batches in which every entry for the element reports a ratio below 0.10,
the marker is never added, the element being marked afterwards exactly when it
was at ready-time. -/
theorem threshold_correctness (s : State) (earlier batches : List (List IntersectionObserverEntry))
    (batch : List IntersectionObserverEntry) (i : Nat)
    (hbatch : ∀ entry ∈ batch, deliveredBy (onDOMContentLoaded s).state.observer entry)
    (hbatches : ∀ b ∈ batches, ∀ entry ∈ b,
      deliveredBy (onDOMContentLoaded s).state.observer entry) :
    (i < s.elements.length →
        (∃ entry ∈ batch, entry.target = i ∧ 1 / 10 ≤ entry.intersectionRatio) →
        hasVisible i (observerCallback batch (session s earlier))) ∧
      ((∀ b ∈ batches, ∀ entry ∈ b, entry.target = i → entry.intersectionRatio < 1 / 10) →
        (hasVisible i (session s batches) ↔ hasVisible i s)) := by
  constructor
  · intro hi hex
    obtain ⟨entry, hmem, htgt, hratio⟩ := hex
    have hflag : entry.isIntersecting = true :=
      (deliveredBy_handler s entry (hbatch entry hmem)).mpr hratio
    have hlen : i < (session s earlier).elements.length := by
      unfold session
      rw [deliver_length, onDOMContentLoaded_elements, List.length_map]
      exact hi
    exact (marking_follows_flag (session s earlier) batch [] i).1 hlen
      ⟨entry, hmem, hflag, htgt⟩
  · intro hlow
    have hflags : ∀ b ∈ batches, ∀ entry ∈ b, entry.target = i →
        entry.isIntersecting = false := by
      intro b hb entry hmem htgt
      have hiff := deliveredBy_handler s entry (hbatches b hb entry hmem)
      have hlt := hlow b hb entry hmem htgt
      cases hflag : entry.isIntersecting with
      | false => rfl
      | true => exact absurd (hiff.mp hflag) (not_le.mpr hlt)
    unfold session
    exact ((marking_follows_flag (onDOMContentLoaded s).state [] batches i).2 hflags).trans
      (hasVisible_onDOMContentLoaded s i)

/-- C1 at a concrete page with two sections: the entry reporting ratio one
half marks section 0, and section 1, whose entries report ratios of one
twentieth and zero, is not marked after the two batches. -/
theorem threshold_correctness_witness :
    hasVisible 0 (observerCallback [⟨0, true, 1 / 2⟩, ⟨1, false, 1 / 20⟩]
        (session (pageOf [⟨"section", [], Style.blank⟩, ⟨"section", [], Style.blank⟩]) [])) ∧
      (hasVisible 1 (session
          (pageOf [⟨"section", [], Style.blank⟩, ⟨"section", [], Style.blank⟩])
          [[⟨0, true, 1 / 2⟩, ⟨1, false, 1 / 20⟩], [⟨1, false, 0⟩]]) ↔
        hasVisible 1 (pageOf [⟨"section", [], Style.blank⟩, ⟨"section", [], Style.blank⟩])) := by
  have hbatch : ∀ entry ∈ [(⟨0, true, 1 / 2⟩ : IntersectionObserverEntry), ⟨1, false, 1 / 20⟩],
      deliveredBy (onDOMContentLoaded (pageOf [⟨"section", [], Style.blank⟩,
        ⟨"section", [], Style.blank⟩])).state.observer entry := by
    simp only [onDOMContentLoaded_observer, deliveredBy, List.mem_cons, List.mem_singleton,
      List.not_mem_nil, or_false, forall_eq_or_imp, forall_eq]
    norm_num
  have hbatches : ∀ b ∈ [[(⟨0, true, 1 / 2⟩ : IntersectionObserverEntry), ⟨1, false, 1 / 20⟩],
        [⟨1, false, 0⟩]], ∀ entry ∈ b,
      deliveredBy (onDOMContentLoaded (pageOf [⟨"section", [], Style.blank⟩,
        ⟨"section", [], Style.blank⟩])).state.observer entry := by
    simp only [onDOMContentLoaded_observer, deliveredBy, List.mem_cons, List.mem_singleton,
      List.not_mem_nil, or_false, forall_eq_or_imp, forall_eq]
    norm_num
  refine ⟨(threshold_correctness _ [] _ _ 0 hbatch hbatches).1 (by decide)
      ⟨⟨0, true, 1 / 2⟩, by simp, rfl, by norm_num⟩,
    (threshold_correctness _ [] _ _ 1 hbatch hbatches).2 ?_⟩
  simp only [List.mem_cons, List.mem_singleton, List.not_mem_nil, or_false, forall_eq_or_imp,
    forall_eq]
  norm_num

/-- C2: monotonic reveal. Over the handler followed by any batches of entries,
the handler keeps a marker present at ready-time, and a marker present after
`j` callbacks is present after any `k ≥ j` callbacks. -/
theorem monotonic_reveal (s : State) (batches : List (List IntersectionObserverEntry))
    (i j k : Nat) (hjk : j ≤ k) :
    (hasVisible i s → hasVisible i (session s [])) ∧
      (hasVisible i (session s (batches.take j)) →
        hasVisible i (session s (batches.take k))) := by
  constructor
  · intro h
    exact (hasVisible_onDOMContentLoaded s i).mpr h
  · intro h
    have hsplit : batches.take k = batches.take j ++ (batches.take k).drop j := by
      have h1 := List.take_append_drop j (batches.take k)
      rw [List.take_take, Nat.min_eq_left hjk] at h1
      exact h1.symm
    unfold session at h ⊢
    rw [hsplit, deliver_append]
    exact hasVisible_deliver_of_hasVisible _ _ i h

/-- C2 at a concrete session: section 0 is marked by the first batch and is
still marked after a second batch that reports it as not intersecting. -/
theorem monotonic_reveal_witness :
    hasVisible 0 (session (pageOf [⟨"section", [], Style.blank⟩])
        ([[⟨0, true, 1 / 2⟩], [⟨0, false, 0⟩]].take 1)) ∧
      hasVisible 0 (session (pageOf [⟨"section", [], Style.blank⟩])
        ([[⟨0, true, 1 / 2⟩], [⟨0, false, 0⟩]].take 2)) :=
  ⟨by decide,
    (monotonic_reveal (pageOf [⟨"section", [], Style.blank⟩])
      [[⟨0, true, 1 / 2⟩], [⟨0, false, 0⟩]] 0 1 2 (by decide)).2 (by decide)⟩

/-- C9: the callback only flips the marker. The observer, the console and the
number of elements are unchanged; each element keeps its local name, its whole
style and every class token other than `visible`; it carries `visible`
afterwards exactly when it carried it before or is the target of an entry of
the batch with `isIntersecting`; and entries without `isIntersecting` can be
dropped from the batch without changing the result. -/
theorem callback_only_flips_marker (s : State) (batch : List IntersectionObserverEntry) :
    (observerCallback batch s).observer = s.observer ∧
      (observerCallback batch s).console = s.console ∧
      (observerCallback batch s).elements.length = s.elements.length ∧
      (∀ j e, s.elements[j]? = some e →
        ∃ e2, (observerCallback batch s).elements[j]? = some e2 ∧
          e2.localName = e.localName ∧ e2.style = e.style ∧
          ("visible" ∈ e2.classList ↔
            "visible" ∈ e.classList ∨
              ∃ entry ∈ batch, entry.isIntersecting = true ∧ entry.target = j) ∧
          ∀ token, token ≠ "visible" → (token ∈ e2.classList ↔ token ∈ e.classList)) ∧
      observerCallback batch s =
        observerCallback (batch.filter (fun entry => entry.isIntersecting)) s := by
  have hget := observerCallback_getElem? batch s
  refine ⟨observerCallback_observer batch s, observerCallback_console batch s, ?_, ?_,
    observerCallback_filter batch s⟩
  · by_contra hne
    rcases Nat.lt_or_gt_of_ne hne with hlt | hgt
    · have h1 := hget (observerCallback batch s).elements.length
      rw [List.getElem?_eq_none (Nat.le_refl _), List.getElem?_eq_getElem hlt] at h1
      split at h1 <;> simp at h1
    · have h1 := hget s.elements.length
      rw [List.getElem?_eq_none (Nat.le_refl _), List.getElem?_eq_getElem hgt] at h1
      split at h1 <;> simp at h1
  · intro j e he
    have h1 := hget j
    rw [he] at h1
    by_cases hb : intersects batch j
    · rw [if_pos hb] at h1
      refine ⟨tokenAdd "visible" e, h1, ?_⟩
      have hb2 : ∃ entry ∈ batch, entry.isIntersecting = true ∧ entry.target = j := hb
      unfold tokenAdd
      by_cases hv : "visible" ∈ e.classList
      · simp [hv]
      · simp only [hv, if_false, List.mem_append, List.mem_singleton, or_true, hb2, true_and,
          false_or]
        intro token htok
        simp [htok]
    · rw [if_neg hb] at h1
      have hb2 : ¬ ∃ entry ∈ batch, entry.isIntersecting = true ∧ entry.target = j := hb
      exact ⟨e, h1, rfl, rfl, by simp [hb2], fun _ _ => Iff.rfl⟩

/-- C10: marking is idempotent. Running the callback twice on one batch gives
the state of running it once, and a batch whose intersecting entries all
target elements already marked leaves the state unchanged. -/
theorem callback_idempotent (s : State) (batch : List IntersectionObserverEntry) :
    observerCallback batch (observerCallback batch s) = observerCallback batch s ∧
      ((∀ entry ∈ batch, entry.isIntersecting = true → hasVisible entry.target s) →
        observerCallback batch s = s) := by
  constructor
  · apply state_ext
    · apply List.ext_getElem?
      intro j
      rw [observerCallback_getElem?, observerCallback_getElem?]
      by_cases hb : intersects batch j
      · simp only [hb, if_true]
        cases s.elements[j]? with
        | none => rfl
        | some e => simp [tokenAdd_tokenAdd]
      · simp only [hb, if_false]
    · rw [observerCallback_observer]
    · rw [observerCallback_console]
  · intro hall
    apply state_ext
    · apply List.ext_getElem?
      intro j
      rw [observerCallback_getElem?]
      by_cases hb : intersects batch j
      · obtain ⟨entry, hmem, hint, htgt⟩ := hb
        obtain ⟨e, he, hv⟩ := hall entry hmem hint
        rw [htgt] at he
        have hb2 : intersects batch j := ⟨entry, hmem, hint, htgt⟩
        simp [hb2, he, tokenAdd, hv]
      · simp only [hb, if_false]
    · rw [observerCallback_observer]
    · rw [observerCallback_console]

/-- C10 at a concrete page: an intersecting entry for an already marked section
changes nothing. -/
theorem callback_idempotent_witness :
    observerCallback [⟨0, true, 1⟩, ⟨1, false, 0⟩]
        (pageOf [⟨"section", ["visible"], Style.blank⟩, ⟨"section", [], Style.blank⟩]) =
      pageOf [⟨"section", ["visible"], Style.blank⟩, ⟨"section", [], Style.blank⟩] :=
  (callback_idempotent
    (pageOf [⟨"section", ["visible"], Style.blank⟩, ⟨"section", [], Style.blank⟩])
    [⟨0, true, 1⟩, ⟨1, false, 0⟩]).2 (by decide)

/-! ## Initializer and heading stylist -/

theorem onDOMContentLoaded_getElem? (s : State) (i : Nat) (e : Element)
    (he : s.elements[i]? = some e) :
    (onDOMContentLoaded s).state.elements[i]? = some (afterLoad e) := by
  rw [onDOMContentLoaded_elements, List.getElem?_map, he]
  rfl

theorem querySelectorAll_eq_nil (sel : String → Bool) (xs : List Element)
    (h : ∀ e ∈ xs, sel e.localName = false) : querySelectorAll sel xs = [] := by
  unfold querySelectorAll
  rw [List.filter_eq_nil_iff]
  intro i hi
  rw [List.mem_range] at hi
  rw [List.getElem?_eq_getElem hi]
  simp [h xs[i] (List.getElem_mem hi)]

/-- C3, as stated, fails: a page whose only section carries `visible` at
ready-time has that section at opacity 1 after the handler. -/
theorem initial_state_counterexample :
    ¬ ∀ e ∈ (onDOMContentLoaded (pageOf [⟨"section", ["visible"], Style.blank⟩])).state.elements,
        e.localName = "section" →
          e.style.opacity = "0" ∧ e.style.transform = "translateY(30px)" := by
  decide

/-- C3, amended: after the handler, every section that did not carry the
`visible` marker at ready-time has opacity 0 and transform translateY(30px). -/
theorem initial_state (s : State) (i : Nat) (e : Element) (he : s.elements[i]? = some e)
    (hsec : e.localName = "section") (hv : "visible" ∉ e.classList) :
    ∃ e2, (onDOMContentLoaded s).state.elements[i]? = some e2 ∧
      e2.style.opacity = "0" ∧ e2.style.transform = "translateY(30px)" := by
  refine ⟨afterLoad e, onDOMContentLoaded_getElem? s i e he, ?_⟩
  simp [afterLoad, onMatch, selSection, selHeading, hidden, resolved, glowing, hsec, hv]

/-- C3, amended, at a concrete page with one unmarked section. -/
theorem initial_state_witness :
    ∃ e2, (onDOMContentLoaded (pageOf [⟨"div", [], Style.blank⟩,
        ⟨"section", ["intro"], Style.blank⟩])).state.elements[1]? = some e2 ∧
      e2.style.opacity = "0" ∧ e2.style.transform = "translateY(30px)" :=
  initial_state (pageOf [⟨"div", [], Style.blank⟩, ⟨"section", ["intro"], Style.blank⟩]) 1
    ⟨"section", ["intro"], Style.blank⟩ rfl rfl (by decide)

/-- C4: pre-visible fast path. A section that carries `visible` at ready-time
has, at the end of the handler, opacity 1 and transform translateY(0), with the
transition still `all 0.8s ease-out`. -/
theorem pre_visible_fast_path (s : State) (i : Nat) (e : Element)
    (he : s.elements[i]? = some e) (hsec : e.localName = "section")
    (hv : "visible" ∈ e.classList) :
    ∃ e2, (onDOMContentLoaded s).state.elements[i]? = some e2 ∧
      e2.style.opacity = "1" ∧ e2.style.transform = "translateY(0)" ∧
      e2.style.transition = "all 0.8s ease-out" := by
  refine ⟨afterLoad e, onDOMContentLoaded_getElem? s i e he, ?_⟩
  simp [afterLoad, onMatch, selSection, selHeading, hidden, resolved, glowing, hsec, hv]

/-- C4 at a concrete page with one section marked at ready-time. -/
theorem pre_visible_fast_path_witness :
    ∃ e2, (onDOMContentLoaded (pageOf [⟨"section", ["hero", "visible"],
        Style.blank⟩])).state.elements[0]? = some e2 ∧
      e2.style.opacity = "1" ∧ e2.style.transform = "translateY(0)" ∧
      e2.style.transition = "all 0.8s ease-out" :=
  pre_visible_fast_path (pageOf [⟨"section", ["hero", "visible"], Style.blank⟩]) 0
    ⟨"section", ["hero", "visible"], Style.blank⟩ rfl rfl (by decide)

/-- C6: heading glow universality. After the handler every `h1` and `h2` has
the fixed text shadow, and every other element has the text shadow it had at
ready-time. -/
theorem heading_glow (s : State) (i : Nat) (e : Element) (he : s.elements[i]? = some e) :
    ∃ e2, (onDOMContentLoaded s).state.elements[i]? = some e2 ∧
      (e.localName = "h1" ∨ e.localName = "h2" →
        e2.style.textShadow = "0 0 10px rgba(255, 215, 0, 0.5)") ∧
      (¬ (e.localName = "h1" ∨ e.localName = "h2") →
        e2.style.textShadow = e.style.textShadow) := by
  refine ⟨afterLoad e, onDOMContentLoaded_getElem? s i e he, ?_, ?_⟩
  · intro hh
    have hsel : selHeading e.localName = true := by
      rcases hh with h | h <;> simp [selHeading, h]
    have hname : (onMatch selSection resolved (onMatch selSection hidden e)).localName =
        e.localName := by
      rw [onMatch_localName selSection resolved resolved_localName,
        onMatch_localName selSection hidden hidden_localName]
    simp only [afterLoad]
    rw [onMatch, hname, if_pos hsel]
    rfl
  · intro hh
    have hsel : selHeading e.localName = false := by
      rw [not_or] at hh
      simp [selHeading, hh.1, hh.2]
    have hname : (onMatch selSection resolved (onMatch selSection hidden e)).localName =
        e.localName := by
      rw [onMatch_localName selSection resolved resolved_localName,
        onMatch_localName selSection hidden hidden_localName]
    simp only [afterLoad]
    rw [onMatch, hname, hsel]
    simp only [Bool.false_eq_true, if_false, onMatch, hidden, resolved]
    repeat' split
    all_goals rfl

/-- C6 at a concrete page: the `h2` gets the glow, the section keeps its own
text shadow. -/
theorem heading_glow_witness :
    (∃ e2, (onDOMContentLoaded (pageOf [⟨"h2", [], Style.blank⟩,
        ⟨"section", [], ⟨"", "", "", "none"⟩⟩])).state.elements[0]? = some e2 ∧
      e2.style.textShadow = "0 0 10px rgba(255, 215, 0, 0.5)") ∧
    (∃ e2, (onDOMContentLoaded (pageOf [⟨"h2", [], Style.blank⟩,
        ⟨"section", [], ⟨"", "", "", "none"⟩⟩])).state.elements[1]? = some e2 ∧
      e2.style.textShadow = "none") :=
  ⟨(heading_glow (pageOf [⟨"h2", [], Style.blank⟩, ⟨"section", [], ⟨"", "", "", "none"⟩⟩]) 0
      ⟨"h2", [], Style.blank⟩ rfl).imp (fun _ h => ⟨h.1, h.2.1 (Or.inr rfl)⟩),
    (heading_glow (pageOf [⟨"h2", [], Style.blank⟩, ⟨"section", [], ⟨"", "", "", "none"⟩⟩]) 1
      ⟨"section", [], ⟨"", "", "", "none"⟩⟩ rfl).imp (fun _ h => ⟨h.1, h.2.2 (by decide)⟩)⟩

/-- C8: no-op on an empty document. On a page with no `section`, `h1` or `h2`
element the handler returns, with every element as it was, a fresh observer
with no registered target, one console line, and no effect other than the log
line and the construction of the observer. -/
theorem noop_on_empty_document (s : State)
    (hnone : ∀ e ∈ s.elements,
      e.localName ≠ "section" ∧ e.localName ≠ "h1" ∧ e.localName ≠ "h2") :
    onDOMContentLoaded s =
      { state :=
          { elements := s.elements
            observer := some ⟨1 / 10, []⟩
            console := s.console ++ ["Темная тема с градиентом загружена!"] }
        trace :=
          [.consoleLog "Темная тема с градиентом загружена!",
            .newIntersectionObserver (1 / 10)] } := by
  have hsec : querySelectorAll selSection s.elements = [] :=
    querySelectorAll_eq_nil _ _ (fun e he => by simp [selSection, (hnone e he).1])
  have hhead : querySelectorAll selHeading s.elements = [] :=
    querySelectorAll_eq_nil _ _
      (fun e he => by simp [selHeading, (hnone e he).2.1, (hnone e he).2.2])
  unfold onDOMContentLoaded
  simp only [perform, applyEffect, hsec, List.foldl_nil, hhead, List.nil_append]
  rfl

/-- C8 at a concrete page made of a `div` and a `p`. -/
theorem noop_on_empty_document_witness :
    (onDOMContentLoaded (pageOf [⟨"div", ["visible"], Style.blank⟩,
        ⟨"p", [], Style.blank⟩])).state.elements =
      [⟨"div", ["visible"], Style.blank⟩, ⟨"p", [], Style.blank⟩] :=
  congrArg (fun r => r.state.elements)
    (noop_on_empty_document (pageOf [⟨"div", ["visible"], Style.blank⟩, ⟨"p", [], Style.blank⟩])
      (by decide))

/-! ## Order and number of the effects of the handler -/

theorem hideTrace_append (l1 l2 : List Nat) :
    hideTrace (l1 ++ l2) = hideTrace l1 ++ hideTrace l2 := by
  induction l1 with
  | nil => rfl
  | cons a l ih => simp [hideTrace, ih]

theorem mem_hideTrace (l : List Nat) (e : Effect) (he : e ∈ hideTrace l) :
    ∃ i ∈ l, isInitialWrite i e ∨ e = .observe i := by
  induction l with
  | nil => simp [hideTrace] at he
  | cons a l ih =>
    simp only [hideTrace, List.mem_cons] at he
    rcases he with h | h | h | h | h
    · exact ⟨a, List.mem_cons_self a l, Or.inl (Or.inl h)⟩
    · exact ⟨a, List.mem_cons_self a l, Or.inl (Or.inr (Or.inl h))⟩
    · exact ⟨a, List.mem_cons_self a l, Or.inl (Or.inr (Or.inr h))⟩
    · exact ⟨a, List.mem_cons_self a l, Or.inr h⟩
    · obtain ⟨i, hi, hw⟩ := ih h
      exact ⟨i, List.mem_cons_of_mem a hi, hw⟩

theorem isInitialWrite_index (i j : Nat) (e : Effect) (hi : isInitialWrite i e)
    (hj : isInitialWrite j e) : i = j := by
  rcases hi with h | h | h <;> rcases hj with h2 | h2 | h2 <;> rw [h] at h2 <;> cases h2 <;> rfl

theorem not_isInitialWrite_observe (i j : Nat) : ¬ isInitialWrite i (.observe j) := by
  rintro (h | h | h) <;> cases h

theorem not_isInitialWrite_of_isResolvedWrite (i : Nat) (e : Effect) (h : isResolvedWrite e) :
    ¬ isInitialWrite i e := by
  obtain ⟨j, hj | hj⟩ := h
  · subst hj
    rintro (h | h | h)
    · injection h with _ hval
      exact absurd hval (by decide)
    · cases h
    · cases h
  · subst hj
    rintro (h | h | h)
    · cases h
    · injection h with _ hval
      exact absurd hval (by decide)
    · cases h

theorem not_observe_of_isResolvedWrite (i : Nat) (e : Effect) (h : isResolvedWrite e) :
    e ≠ .observe i := by
  obtain ⟨j, hj | hj⟩ := h <;> subst hj <;> intro h <;> cases h

/-- Within the first loop, no initial write on a section follows the
registration of that section. -/
theorem pairwise_hideTrace (i : Nat) (l : List Nat) (hl : l.Nodup) :
    (hideTrace l).Pairwise (fun x y => x = Effect.observe i → ¬ isInitialWrite i y) := by
  induction l with
  | nil => exact List.Pairwise.nil
  | cons a l ih =>
    have hnd := List.nodup_cons.mp hl
    have htail : ∀ y ∈ hideTrace l, ¬ isInitialWrite a y := by
      intro y hy hw
      obtain ⟨j, hj, hcase⟩ := mem_hideTrace l y hy
      rcases hcase with h | h
      · have := isInitialWrite_index a j y hw h
        subst this
        exact hnd.1 hj
      · subst h
        exact not_isInitialWrite_observe a j hw
    simp only [hideTrace, List.pairwise_cons, List.mem_cons]
    refine ⟨?_, ?_, ?_, ?_, ih hnd.2⟩
    · intro y _ hx
      cases hx
    · intro y _ hx
      cases hx
    · intro y _ hx
      cases hx
    · intro y hy hx
      injection hx with hai
      subst hai
      exact htail y hy

theorem count_observe_hideTrace (i : Nat) (l : List Nat) :
    (hideTrace l).count (.observe i) = l.count i := by
  induction l with
  | nil => rfl
  | cons a l ih =>
    simp only [hideTrace, List.count_cons, ih]
    by_cases h : a = i
    · subst h
      simp
    · simp [h]

theorem getElem?_middle (pre mid post : List Effect) (k : Nat) (hk : k < mid.length) :
    (pre ++ mid ++ post)[pre.length + k]? = mid[k]? := by
  rw [List.append_assoc, List.getElem?_append_right (Nat.le_add_right _ _),
    Nat.add_sub_cancel_left, List.getElem?_append_left hk]

/-- Over the whole handler, no initial write on a section follows the
registration of that section. -/
theorem pairwise_trace (s : State) (i : Nat) :
    (onDOMContentLoaded s).trace.Pairwise
      (fun x y => x = Effect.observe i → ¬ isInitialWrite i y) := by
  obtain ⟨ext, hext, htrace⟩ := onDOMContentLoaded_trace s
  rw [htrace, List.append_assoc, List.append_assoc]
  have htail : ∀ y ∈ ext ++ (querySelectorAll selHeading s.elements).map
      (fun i => Effect.setTextShadow i "0 0 10px rgba(255, 215, 0, 0.5)"),
      ¬ isInitialWrite i y := by
    intro y hy
    rcases List.mem_append.mp hy with h | h
    · exact not_isInitialWrite_of_isResolvedWrite i y (hext y h)
    · obtain ⟨j, _, hj⟩ := List.mem_map.mp h
      subst hj
      rintro (h | h | h) <;> cases h
  rw [List.pairwise_append]
  refine ⟨?_, ?_, ?_⟩
  · simp only [List.pairwise_cons, List.mem_singleton, List.not_mem_nil]
    refine ⟨?_, ?_, List.Pairwise.nil⟩
    · intro y _ hx
      cases hx
    · intro y hy
      exact hy.elim
  · rw [List.pairwise_append]
    refine ⟨pairwise_hideTrace i _ (nodup_querySelectorAll _ _), ?_, ?_⟩
    · exact List.pairwise_of_forall_mem_list (fun a _ b hb _ => htail b hb)
    · intro a _ b hb _
      exact htail b hb
  · intro a ha b _ hx
    subst hx
    simp at ha

/-- C5, as stated, fails: on a page with two sections the first section is
registered (effect 5 of the handler) before the second section gets its first
initial style write (effect 6). -/
theorem ordering_counterexample :
    ¬ ∀ (p q i j : Nat) (w : Effect),
        (onDOMContentLoaded (pageOf [⟨"section", [], Style.blank⟩,
          ⟨"section", [], Style.blank⟩])).trace[p]? = some (.observe i) →
        (onDOMContentLoaded (pageOf [⟨"section", [], Style.blank⟩,
          ⟨"section", [], Style.blank⟩])).trace[q]? = some w →
        isInitialWrite j w → q < p := by
  intro h
  have h56 := h 5 6 0 1 (.setOpacity 1 "0") (by decide) (by decide) (by decide)
  omega

/-- C5, amended: the ordering holds section by section. No `observe` call on a
section precedes an initial style write on that same section; and for every
section the handler performs the three initial writes and the registration as
four consecutive effects, in that order. -/
theorem initial_writes_before_own_observe (s : State) (i : Nat) :
    (∀ (p q : Nat) (w : Effect), (onDOMContentLoaded s).trace[p]? = some (Effect.observe i) →
        (onDOMContentLoaded s).trace[q]? = some w → isInitialWrite i w → q < p) ∧
      (∀ e, s.elements[i]? = some e → e.localName = "section" →
        ∃ p, (onDOMContentLoaded s).trace[p]? = some (Effect.setOpacity i "0") ∧
          (onDOMContentLoaded s).trace[p + 1]? = some (Effect.setTransform i "translateY(30px)") ∧
          (onDOMContentLoaded s).trace[p + 2]? = some (Effect.setTransition i "all 0.8s ease-out") ∧
          (onDOMContentLoaded s).trace[p + 3]? = some (Effect.observe i)) := by
  constructor
  · intro p q w hp hq hw
    by_contra hlt
    obtain ⟨hpl, hpe⟩ := List.getElem?_eq_some.mp hp
    obtain ⟨hql, hqe⟩ := List.getElem?_eq_some.mp hq
    have hne : p ≠ q := by
      intro hpq
      subst hpq
      rw [hp] at hq
      cases hq
      exact not_isInitialWrite_observe i i hw
    have hpq : p < q := by omega
    have hpair := List.pairwise_iff_getElem.mp (pairwise_trace s i) p q hpl hql hpq
    rw [hqe] at hpair
    exact hpair hpe hw
  · intro e he hsec
    have hmem : i ∈ querySelectorAll selSection s.elements :=
      (mem_querySelectorAll selSection s.elements i).mpr ⟨e, he, by simp [selSection, hsec]⟩
    obtain ⟨l1, l2, hl⟩ := List.append_of_mem hmem
    obtain ⟨ext, _, htrace⟩ := onDOMContentLoaded_trace s
    have hshape : (onDOMContentLoaded s).trace =
        ([.consoleLog "Темная тема с градиентом загружена!",
            .newIntersectionObserver (1 / 10)] ++ hideTrace l1) ++
          [.setOpacity i "0", .setTransform i "translateY(30px)",
            .setTransition i "all 0.8s ease-out", .observe i] ++
          (hideTrace l2 ++ ext ++ (querySelectorAll selHeading s.elements).map
            (fun i => Effect.setTextShadow i "0 0 10px rgba(255, 215, 0, 0.5)")) := by
      rw [htrace, hl, hideTrace_append]
      simp [hideTrace]
    refine ⟨([Effect.consoleLog "Темная тема с градиентом загружена!",
      Effect.newIntersectionObserver (1 / 10)] ++ hideTrace l1).length, ?_, ?_, ?_, ?_⟩
    · rw [hshape]
      exact getElem?_middle _ _ _ 0 (by simp)
    · rw [hshape]
      exact getElem?_middle _ _ _ 1 (by simp)
    · rw [hshape]
      exact getElem?_middle _ _ _ 2 (by simp)
    · rw [hshape]
      exact getElem?_middle _ _ _ 3 (by simp)

/-- C5, amended, at the page with two sections: the second section is written
at effects 6 to 8 and registered at effect 9. -/
theorem initial_writes_before_own_observe_witness :
    ∃ p, (onDOMContentLoaded (pageOf [⟨"section", [], Style.blank⟩,
          ⟨"section", [], Style.blank⟩])).trace[p]? = some (Effect.setOpacity 1 "0") ∧
      (onDOMContentLoaded (pageOf [⟨"section", [], Style.blank⟩,
          ⟨"section", [], Style.blank⟩])).trace[p + 1]? =
        some (Effect.setTransform 1 "translateY(30px)") ∧
      (onDOMContentLoaded (pageOf [⟨"section", [], Style.blank⟩,
          ⟨"section", [], Style.blank⟩])).trace[p + 2]? =
        some (Effect.setTransition 1 "all 0.8s ease-out") ∧
      (onDOMContentLoaded (pageOf [⟨"section", [], Style.blank⟩,
          ⟨"section", [], Style.blank⟩])).trace[p + 3]? = some (Effect.observe 1) :=
  (initial_writes_before_own_observe
    (pageOf [⟨"section", [], Style.blank⟩, ⟨"section", [], Style.blank⟩]) 1).2
    ⟨"section", [], Style.blank⟩ rfl rfl

/-- C7: watcher registration. The handler builds the observer with threshold
one tenth; its targets after the handler are the elements returned by
`querySelectorAll` for `section`, that is exactly the elements with local name
`section`, none twice; and `observe` is called once on each of them and on no
other element. -/
theorem watcher_registration (s : State) :
    (onDOMContentLoaded s).state.observer =
        some ⟨1 / 10, querySelectorAll selSection s.elements⟩ ∧
      (querySelectorAll selSection s.elements).Nodup ∧
      (∀ i, i ∈ querySelectorAll selSection s.elements ↔
        ∃ e, s.elements[i]? = some e ∧ e.localName = "section") ∧
      (∀ i, (onDOMContentLoaded s).trace.count (.observe i) =
        if i ∈ querySelectorAll selSection s.elements then 1 else 0) := by
  refine ⟨onDOMContentLoaded_observer s, nodup_querySelectorAll _ _, ?_, ?_⟩
  · intro i
    rw [mem_querySelectorAll]
    simp [selSection]
  · intro i
    obtain ⟨ext, hext, htrace⟩ := onDOMContentLoaded_trace s
    have h1 : ext.count (.observe i) = 0 :=
      List.count_eq_zero_of_not_mem
        (fun hm => not_observe_of_isResolvedWrite i _ (hext _ hm) rfl)
    have h2 : ((querySelectorAll selHeading s.elements).map
        (fun i => Effect.setTextShadow i "0 0 10px rgba(255, 215, 0, 0.5)")).count
          (.observe i) = 0 := by
      apply List.count_eq_zero_of_not_mem
      intro hm
      obtain ⟨j, _, hj⟩ := List.mem_map.mp hm
      cases hj
    have h3 : List.count (Effect.observe i)
        [.consoleLog "Темная тема с градиентом загружена!",
          .newIntersectionObserver (1 / 10)] = 0 := by
      apply List.count_eq_zero_of_not_mem
      intro hm
      simp at hm
    rw [htrace, List.count_append, List.count_append, List.count_append, h1, h2, h3,
      count_observe_hideTrace, List.count_eq_of_nodup (nodup_querySelectorAll _ _)]
    simp

end Chernobyl
